import Mathlib

/-!
Verification of the `csharp-extract-interface` VS Code extension's core logic
(`src/logic/interfaceExtractor.ts`, `src/logic/csharpParser.ts`,
`src/logic/addToInterface.ts`, `src/logic/implementInterface.ts`).

The core is pure string transformation driven by JavaScript regular
expressions.  We embed it shallowly:

* strings are `String` / `List Char`;
* each regex literal of the source is transcribed into an explicit `RE`
  abstract syntax tree, and a small backtracking engine `reM` reproduces the
  JavaScript semantics (leftmost match, greedy/lazy quantifiers in
  backtracking priority order, capture groups, lookahead, word boundary,
  multiline `^`);
* call sites that only use `RegExp.test` (a bare existence check) are
  embedded as direct existence scanners, which is observationally equal to
  the JS behaviour because `test` does not expose which match is chosen;
* `new RegExp(pattern)` can throw a `SyntaxError` when the pattern string is
  not valid regex syntax.  The two functions that interpolate caller-supplied
  names into pattern strings (`updateClassToImplementInterface`,
  `filterUnimplementedMembers`) are therefore embedded with result type
  `Except String _`, guarded by an executable syntax checker `chk` for the
  JS pattern grammar fragment these patterns use.

All definitions are executable and kernel-reducible (structural recursion
only), so concrete runs are settled by `decide`.
-/

set_option maxRecDepth 20000
set_option maxHeartbeats 4000000

/-- Character ranges (inclusive); a character class is a list of ranges. -/
abbrev CharRanges := List (Char × Char)

/-- Membership of a character in a list of inclusive ranges. -/
def inCls (c : Char) (rs : CharRanges) : Bool :=
  rs.any (fun r => r.1 ≤ c && c ≤ r.2)

/-- Ranges of the JS `\w` class: `[A-Za-z0-9_]`. -/
def wordRanges : CharRanges :=
  [('a', 'z'), ('A', 'Z'), ('0', '9'), ('_', '_')]

/-- JS word character (`\w`), as used by `\b` word boundaries. -/
def isWordChar (c : Char) : Bool :=
  inCls c wordRanges

/-- Ranges of the JS `\s` class (WhiteSpace plus LineTerminator). -/
def wsRanges : CharRanges :=
  [(' ', ' '), ('\t', '\t'), ('\n', '\n'), ('\x0b', '\x0b'), ('\x0c', '\x0c'),
   ('\r', '\r'),
   (Char.ofNat 0xa0, Char.ofNat 0xa0),
   (Char.ofNat 0x1680, Char.ofNat 0x1680),
   (Char.ofNat 0x2000, Char.ofNat 0x200a),
   (Char.ofNat 0x2028, Char.ofNat 0x2029),
   (Char.ofNat 0x202f, Char.ofNat 0x202f),
   (Char.ofNat 0x205f, Char.ofNat 0x205f),
   (Char.ofNat 0x3000, Char.ofNat 0x3000),
   (Char.ofNat 0xfeff, Char.ofNat 0xfeff)]

/-- JS whitespace (`\s`). -/
def isJsWs (c : Char) : Bool :=
  inCls c wsRanges

/-- Ranges of the JS LineTerminator set (what `.` does not match and what a
multiline `^` follows). -/
def lineTermRanges : CharRanges :=
  [('\n', '\n'), ('\r', '\r'),
   (Char.ofNat 0x2028, Char.ofNat 0x2029)]

/-- JS line terminator. -/
def isLineTerm (c : Char) : Bool :=
  inCls c lineTermRanges

/-- Character matched by the JS `.` (anything but a line terminator). -/
def isDotChar (c : Char) : Bool :=
  !isLineTerm c

/-- Abstract syntax of the regex fragment used by the source's patterns. -/
inductive RE : Type where
  /-- empty regex -/
  | eps : RE
  /-- a literal character -/
  | lit : Char → RE
  /-- character class; `neg` true for a `[^...]` class -/
  | cls : Bool → CharRanges → RE
  /-- concatenation -/
  | seq : RE → RE → RE
  /-- alternation (left preferred) -/
  | alt : RE → RE → RE
  /-- Kleene star; `lz` true for the lazy `*?` -/
  | star : Bool → RE → RE
  /-- one or more (greedy `+`) -/
  | plus : RE → RE
  /-- zero or one (greedy `?`) -/
  | opt : RE → RE
  /-- numbered capture group `(...)` -/
  | grp : Nat → RE → RE
  /-- positive lookahead `(?=...)` (none of the source's lookaheads capture) -/
  | look : RE → RE
  /-- word boundary `\b` -/
  | wordB : RE
  /-- multiline `^` (the source's only `^` uses carry the `m` flag) -/
  | bol : RE

/-- Captured groups: latest binding first, looked up by group number. -/
abbrev Caps := List (Nat × List Char)

/-- Value of a capture group, `none` when the group did not participate. -/
def lookupCaps (caps : Caps) (i : Nat) : Option (List Char) :=
  (caps.find? (fun p => p.1 == i)).map (fun p => p.2)

/-- Value of a capture group that is known to participate. -/
def capsGetD (caps : Caps) (i : Nat) : List Char :=
  (lookupCaps caps i).getD []

/-- Is this (possibly absent) character a word character?  Absent means the
edge of the string, which is never a word character. -/
def isWordO : Option Char → Bool
  | none => false
  | some c => isWordChar c

/-- Backtracking regex matcher.  `reM fuel e prev l caps` returns the list of
possible outcomes `(prev', rest, caps')` of matching `e` at the start of `l`,
in JS backtracking priority order (so the head of the list is the outcome the
JS engine commits to).  `prev` is the character just before the current
position (`none` at the start of the subject string); it feeds `\b` and the
multiline `^`.  Fuel decreases on every recursive call; callers pass fuel
that is large relative to the subject so that it never runs out in practice,
and the structural lemmas below hold for every fuel. -/
def reM : Nat → RE → Option Char → List Char → Caps →
    List (Option Char × List Char × Caps)
  | 0, _, _, _, _ => []
  | _ + 1, .eps, prev, l, caps => [(prev, l, caps)]
  | _ + 1, .lit c, _, l, caps =>
    match l with
    | c' :: rest => if c' == c then [(some c', rest, caps)] else []
    | [] => []
  | _ + 1, .cls neg rs, _, l, caps =>
    match l with
    | c' :: rest => if inCls c' rs != neg then [(some c', rest, caps)] else []
    | [] => []
  | f + 1, .seq a b, prev, l, caps =>
    (reM f a prev l caps).flatMap (fun o => reM f b o.1 o.2.1 o.2.2)
  | f + 1, .alt a b, prev, l, caps =>
    reM f a prev l caps ++ reM f b prev l caps
  | f + 1, .star lz a, prev, l, caps =>
    if lz then
      (prev, l, caps) ::
        (reM f a prev l caps).flatMap (fun o =>
          if o.2.1.length < l.length then reM f (.star lz a) o.1 o.2.1 o.2.2
          else [])
    else
      ((reM f a prev l caps).flatMap (fun o =>
        if o.2.1.length < l.length then reM f (.star lz a) o.1 o.2.1 o.2.2
        else [])) ++ [(prev, l, caps)]
  | f + 1, .plus a, prev, l, caps =>
    (reM f a prev l caps).flatMap (fun o => reM f (.star false a) o.1 o.2.1 o.2.2)
  | f + 1, .opt a, prev, l, caps =>
    reM f a prev l caps ++ [(prev, l, caps)]
  | f + 1, .grp i a, prev, l, caps =>
    (reM f a prev l caps).map (fun o =>
      (o.1, o.2.1, (i, l.take (l.length - o.2.1.length)) :: o.2.2))
  | f + 1, .look a, prev, l, caps =>
    if (reM f a prev l caps).isEmpty then [] else [(prev, l, caps)]
  | _ + 1, .wordB, prev, l, caps =>
    if isWordO prev != isWordO l.head? then [(prev, l, caps)] else []
  | _ + 1, .bol, prev, l, caps =>
    match prev with
    | none => [(prev, l, caps)]
    | some c => if isLineTerm c then [(prev, l, caps)] else []

/-- Fuel that is generous for the patterns at hand (their nesting depth per
consumed character is far below 200). -/
def reFuel (l : List Char) : Nat :=
  200 * (l.length + 2)

/-- Try the regex at the current position only; on success return the
committed (head) outcome as `(matchedText, captures, rest)`. -/
def reMatchAt (e : RE) (prev : Option Char) (l : List Char) :
    Option (List Char × Caps × List Char) :=
  match reM (reFuel l) e prev l [] with
  | o :: _ => some (l.take (l.length - o.2.1.length), o.2.2, o.2.1)
  | [] => none

/-- Leftmost search, as `RegExp.exec` / non-global `String.match`: returns
`(before, matchedText, captures, rest)` for the leftmost position where the
regex matches. -/
def reSearch (e : RE) : Option Char → List Char →
    Option (List Char × List Char × Caps × List Char)
  | prev, l =>
    match reMatchAt e prev l with
    | some (m, caps, rest) => some ([], m, caps, rest)
    | none =>
      match l with
      | [] => none
      | c :: t =>
        (reSearch e (some c) t).map
          (fun r => (c :: r.1, r.2.1, r.2.2.1, r.2.2.2))

/-- Worker for global matching: repeated leftmost search, resuming after the
end of each (non-empty) match; an empty match advances one character, as the
JS `lastIndex` rule does. -/
def reMatchAllAux : Nat → RE → Option Char → List Char →
    List (List Char × Caps)
  | 0, _, _, _ => []
  | f + 1, e, prev, l =>
    match reSearch e prev l with
    | none => []
    | some (before, m, caps, rest) =>
      match m with
      | [] =>
        ([], caps) ::
          (match rest with
           | [] => []
           | c :: t => reMatchAllAux f e (some c) t)
      | _ :: _ =>
        (m, caps) ::
          (match (before ++ m).getLast? with
           | some c => reMatchAllAux f e (some c) rest
           | none => reMatchAllAux f e prev rest)

/-- All matches of a global regex over `l`, with their captures, as
`String.matchAll` / global `exec` loops produce them. -/
def reMatchAll (e : RE) (l : List Char) : List (List Char × Caps) :=
  reMatchAllAux (l.length + 1) e none l

/-- Regex for a literal character sequence. -/
def lits : List Char → RE
  | [] => .eps
  | c :: cs => .seq (.lit c) (lits cs)

/-!
Syntax checking of dynamically built patterns.

`new RegExp(p)` throws a `SyntaxError` when `p` is not syntactically valid.
`chk` walks a pattern string keeping the open-group depth, whether the
previous token was a quantifiable atom, and whether we are inside a
character class.  This covers the grammar actually reachable through the
source's interpolated patterns (escapes, classes, groups `(`/`(?:`/`(?=`/
`(?!`, quantifiers `*` `+` `?` with optional lazy `?`, alternation and
anchors); `{` and `}` outside a class are treated as literal atoms, as in
JS Annex B syntax when they do not form a quantifier.
-/

/-- Quantifiability state: `no` = nothing quantifiable precedes, `yes` = a
quantifiable atom precedes, `quant` = a quantifier was just consumed (one
lazy `?` may follow). -/
inductive LA : Type where
  | no : LA
  | yes : LA
  | quant : LA
deriving DecidableEq

/-- Lexer mode for the pattern-syntax walk. -/
inductive PMode : Type where
  /-- top level -/
  | normal : PMode
  /-- just after a `\\` escape -/
  | esc : PMode
  /-- inside a `[...]` class -/
  | cls : PMode
  /-- inside a class, just after `\\` -/
  | clsEsc : PMode
  /-- just after `(` (a `?` here starts a special group) -/
  | grpOpen : PMode
  /-- just after `(?` (expects `:`, `=` or `!`) -/
  | grpOpenQ : PMode
deriving DecidableEq

/-- Pattern-syntax walk, one character per step: `chk m cs d la` is true
when the remaining pattern `cs` is well formed given mode `m`, open-group
depth `d` and quantifiability state `la`. -/
def chk : PMode → List Char → Nat → LA → Bool
  | m, [], d, _ => m == .normal && d == 0
  | .esc, _ :: rest, d, _ => chk .normal rest d .yes
  | .clsEsc, _ :: rest, d, la => chk .cls rest d la
  | .cls, c :: rest, d, la =>
    if c == '\\' then chk .clsEsc rest d la
    else if c == ']' then chk .normal rest d .yes
    else chk .cls rest d la
  | .grpOpenQ, c :: rest, d, _ =>
    if c == ':' || c == '=' || c == '!' then chk .normal rest d .no
    else false
  | .grpOpen, c :: rest, d, _ =>
    if c == '?' then chk .grpOpenQ rest d .no
    else if c == '\\' then chk .esc rest d .no
    else if c == '[' then chk .cls rest d .no
    else if c == '(' then chk .grpOpen rest (d + 1) .no
    else if c == ')' then
      (if d == 0 then false else chk .normal rest (d - 1) .yes)
    else if c == '*' || c == '+' then false
    else if c == '|' || c == '^' || c == '$' then chk .normal rest d .no
    else chk .normal rest d .yes
  | .normal, c :: rest, d, la =>
    if c == '\\' then chk .esc rest d la
    else if c == '[' then chk .cls rest d la
    else if c == '(' then chk .grpOpen rest (d + 1) .no
    else if c == ')' then
      (if d == 0 then false else chk .normal rest (d - 1) .yes)
    else if c == '*' || c == '+' then
      (if la == .yes then chk .normal rest d .quant else false)
    else if c == '?' then
      (if la == .yes then chk .normal rest d .quant
       else if la == .quant then chk .normal rest d .no
       else false)
    else if c == '|' || c == '^' || c == '$' then chk .normal rest d .no
    else chk .normal rest d .yes

/-- Does `new RegExp(p)` succeed (no `SyntaxError`)? -/
def jsRegexValid (p : String) : Bool :=
  chk .normal p.data 0 .no

/-- JS `String.prototype.includes` on character lists. -/
def containsSub (l pat : List Char) : Bool :=
  pat.isPrefixOf l ||
    match l with
    | [] => false
    | _ :: t => containsSub t pat

/-- JS `String.prototype.replace` with a plain string search value: replace
the first occurrence only (identity when absent; insertion at the front for
the empty search string, as in JS). -/
def replaceFirstList (l pat repl : List Char) : List Char :=
  if pat.isPrefixOf l then repl ++ l.drop pat.length
  else
    match l with
    | [] => []
    | c :: t => c :: replaceFirstList t pat repl

/-- JS `String.prototype.replace` with a string search value, on `String`. -/
def replaceFirst (s pat repl : String) : String :=
  ⟨replaceFirstList s.data pat.data repl.data⟩

/-- JS `String.prototype.trimEnd` (trims WhiteSpace and LineTerminator,
which is exactly the `\s` set). -/
def jsTrimEndList (l : List Char) : List Char :=
  (l.reverse.dropWhile isJsWs).reverse

/-- JS `String.prototype.trim`. -/
def jsTrimList (l : List Char) : List Char :=
  jsTrimEndList (l.dropWhile isJsWs)

/-- Node `path.posix.basename` (no extension argument): strip trailing
slashes, then keep the text after the last remaining slash; an all-slash
path gives "/", the empty path gives "". -/
def posixBasename (p : String) : String :=
  let rev := p.data.reverse
  let revTrimmed := rev.dropWhile (fun c => c == '/')
  if revTrimmed.isEmpty then
    if p.data.isEmpty then ⟨[]⟩ else ⟨['/']⟩
  else ⟨(revTrimmed.takeWhile (fun c => c != '/')).reverse⟩

/-- Does an `Except` hold a value (i.e. the modelled JS call returned rather
than threw)? -/
def isOkE {α : Type} : Except String α → Bool
  | .ok _ => true
  | .error _ => false

/-- Decidable equality for `Except` (not provided by the core library). -/
instance {ε α : Type} [DecidableEq ε] [DecidableEq α] :
    DecidableEq (Except ε α)
  | .error e, .error f => decidable_of_iff (e = f) (by simp)
  | .error _, .ok _ => isFalse (by simp)
  | .ok _, .error _ => isFalse (by simp)
  | .ok a, .ok b => decidable_of_iff (a = b) (by simp)

/-!  ## Data model (descriptor records of `csharpParser.ts`) -/

/-- Parsed method signature (`MethodInfo` of csharpParser.ts). -/
structure MethodInfo : Type where
  returnType : String
  name : String
  genericParams : Option String
  parameters : String
deriving DecidableEq

/-- Parsed event (`EventInfo` of csharpParser.ts). -/
structure EventInfo : Type where
  type : String
  name : String
deriving DecidableEq

/-- Parsed property (`PropertyInfo` of csharpParser.ts). -/
structure PropertyInfo : Type where
  type : String
  name : String
deriving DecidableEq

/-- All members of an interface (`InterfaceMembers` of implementInterface.ts). -/
structure InterfaceMembers : Type where
  methods : List MethodInfo
  properties : List PropertyInfo
  events : List EventInfo
deriving DecidableEq

/-- Result of interface extraction (`ExtractionResult` of
interfaceExtractor.ts; the `namespace` field is renamed `namespaceName`
because `namespace` is a Lean keyword). -/
structure ExtractionResult : Type where
  interfaceName : String
  interfaceCode : String
  namespaceName : Option String
deriving DecidableEq

/-!  ## The source's regex literals as `RE` trees -/

/-- Concatenation of a list of regexes. -/
def seqs : List RE → RE
  | [] => .eps
  | [e] => e
  | e :: es => .seq e (seqs es)

/-- `\s` -/
def rws : RE := .cls false wsRanges

/-- `\w` -/
def rword : RE := .cls false wordRanges

/-- `.` -/
def rdot : RE := .cls true lineTermRanges

/-- `\s*` -/
def wsStar : RE := .star false rws

/-- `\s+` -/
def wsPlus : RE := .plus rws

/-- `[\w<>\[\]]` (the return-type class of the method pattern) -/
def typeRanges : CharRanges :=
  wordRanges ++ [('<', '<'), ('>', '>'), ('[', '['), (']', ']')]

/-- `[\w<>\[\]?]` -/
def typeQRanges : CharRanges := typeRanges ++ [('?', '?')]

/-- `[\w<>\[\].]` -/
def typeDotRanges : CharRanges := typeRanges ++ [('.', '.')]

/-- `[\w<>\[\]?,]` -/
def typeQCommaRanges : CharRanges := typeRanges ++ [('?', '?'), (',', ',')]

/-- `[^>]*` -/
def notGtStar : RE := .star false (.cls true [('>', '>')])

/-- `[^)]*` -/
def notParenStar : RE := .star false (.cls true [(')', ')')])

/-- `CSharpPatterns.namespace`: `/namespace\s+([\w.]+)/` -/
def namespaceRE : RE :=
  seqs [lits ("namespace".data), wsPlus,
    .grp 1 (.plus (.cls false (wordRanges ++ [('.', '.')])))]

/-- `CSharpPatterns.usings`: `/^using\s+.*;/gm` -/
def usingsRE : RE :=
  seqs [.bol, lits ("using".data), wsPlus, .star false rdot, .lit ';']

/-- `CSharpPatterns.method`:
`/public\s+(?:async\s+)?([\w<>\[\]]+)\s+(\w+)\s*(?:<([^>]*)>)?\s*\(([^)]*)\)\s*(?={)/g` -/
def methodRE : RE :=
  seqs [lits ("public".data), wsPlus,
    .opt (.seq (lits ("async".data)) wsPlus),
    .grp 1 (.plus (.cls false typeRanges)), wsPlus,
    .grp 2 (.plus rword), wsStar,
    .opt (seqs [.lit '<', .grp 3 notGtStar, .lit '>']), wsStar,
    .lit '(', .grp 4 notParenStar, .lit ')', wsStar,
    .look (.lit '\x7b')]

/-- `CSharpPatterns.event`: `/public\s+event\s+([\w<>\[\].]+)\s+(\w+)\s*;/g` -/
def eventRE : RE :=
  seqs [lits ("public".data), wsPlus, lits ("event".data), wsPlus,
    .grp 1 (.plus (.cls false typeDotRanges)), wsPlus,
    .grp 2 (.plus rword), wsStar, .lit ';']

/-- `parseInterfaceMembers`'s interface-start pattern:
`/interface\s+\w+(?:<[^>]*>)?\s*\{/` -/
def ifaceStartRE : RE :=
  seqs [lits ("interface".data), wsPlus, .plus rword,
    .opt (seqs [.lit '<', notGtStar, .lit '>']), wsStar, .lit '\x7b']

/-- `parseInterfaceMembers`'s method pattern:
`/([\w<>\[\]?]+)\s+(\w+)\s*(?:<([^>]*)>)?\s*\(([^)]*)\)\s*;/g` -/
def ifaceMethodRE : RE :=
  seqs [.grp 1 (.plus (.cls false typeQRanges)), wsPlus,
    .grp 2 (.plus rword), wsStar,
    .opt (seqs [.lit '<', .grp 3 notGtStar, .lit '>']), wsStar,
    .lit '(', .grp 4 notParenStar, .lit ')', wsStar, .lit ';']

/-- `parseInterfaceMembers`'s property pattern:
`/([\w<>\[\]?,]+)\s+(\w+)\s*\{\s*get\s*;\s*(?:set\s*;)?\s*\}/g` -/
def ifacePropertyRE : RE :=
  seqs [.grp 1 (.plus (.cls false typeQCommaRanges)), wsPlus,
    .grp 2 (.plus rword), wsStar, .lit '\x7b', wsStar,
    lits ("get".data), wsStar, .lit ';', wsStar,
    .opt (seqs [lits ("set".data), wsStar, .lit ';']), wsStar, .lit '\x7d']

/-- `parseInterfaceMembers`'s event pattern:
`/event\s+([\w<>\[\].]+)\s+(\w+)\s*;/g` -/
def ifaceEventRE : RE :=
  seqs [lits ("event".data), wsPlus,
    .grp 1 (.plus (.cls false typeDotRanges)), wsPlus,
    .grp 2 (.plus rword), wsStar, .lit ';']

/-- `addMemberToInterface`'s member-name pattern: `/(\w+)\s*[<(]/` -/
def memberNameRE : RE :=
  seqs [.grp 1 (.plus rword), wsStar, .cls false [('<', '<'), ('(', '(')]]

/-- `addMemberToInterface`'s interface pattern:
`/(interface\s+\w+\s*(?:<[^>]*>)?\s*\{)([\s\S]*?)(\})/` -/
def addIfaceRE : RE :=
  seqs [.grp 1 (seqs [lits ("interface".data), wsPlus, .plus rword, wsStar,
      .opt (seqs [.lit '<', notGtStar, .lit '>']), wsStar, .lit '\x7b']),
    .grp 2 (.star true (.cls true [])),
    .grp 3 (.lit '\x7d')]

/-- `addMemberToInterface`'s indentation pattern: `/^(\s+)\S/m` -/
def indentRE : RE :=
  seqs [.bol, .grp 1 wsPlus, .cls true wsRanges]

/-- `[^\s{]` (an inheritance-list entry character) -/
def nsb : RE := .cls true (wsRanges ++ [('\x7b', '\x7b')])

/-- The inheritance-list subpattern `([^\s{]+(?:\s*,\s*[^\s{]+)*)`, captured
as group `g`. -/
def inheritListRE (g : Nat) : RE :=
  .grp g (.seq (.plus nsb)
    (.star false (seqs [wsStar, .lit ',', wsStar, .plus nsb])))

/-- The primary-constructor header regex of `updateClassToImplementInterface`
(with the class name interpolated):
`(public\s+class\s+NAME\(([^)]*)\))(\s*:\s*([^\s{]+(?:\s*,\s*[^\s{]+)*))?`.
Interpolated name characters are treated as literals, which agrees with JS
whenever the name is free of regex metacharacters (the guarded case). -/
def primaryClassRE (name : List Char) : RE :=
  .seq
    (.grp 1 (seqs [lits ("public".data), wsPlus, lits ("class".data), wsPlus,
      lits name, .lit '(', .grp 2 notParenStar, .lit ')']))
    (.opt (.grp 3 (seqs [wsStar, .lit ':', wsStar, inheritListRE 4])))

/-- The plain header regex of `updateClassToImplementInterface`:
`(public\s+class\s+NAME)(\s*:\s*([^\s{]+(?:\s*,\s*[^\s{]+)*))?`. -/
def regularClassRE (name : List Char) : RE :=
  .seq
    (.grp 1 (seqs [lits ("public".data), wsPlus, lits ("class".data), wsPlus,
      lits name]))
    (.opt (.grp 2 (seqs [wsStar, .lit ':', wsStar, inheritListRE 3])))

/-- The pattern string passed to `new RegExp` for the primary-constructor
header (this is what can throw a `SyntaxError`). -/
def primaryClassPattern (className : String) : String :=
  "(public\\s+class\\s+" ++ className ++
    "\\(([^)]*)\\))(\\s*:\\s*([^\\s\x7b]+(?:\\s*,\\s*[^\\s\x7b]+)*))?"

/-- The pattern string passed to `new RegExp` for the plain header. -/
def regularClassPattern (className : String) : String :=
  "(public\\s+class\\s+" ++ className ++
    ")(\\s*:\\s*([^\\s\x7b]+(?:\\s*,\\s*[^\\s\x7b]+)*))?"

/-- `filterUnimplementedMembers`'s method pattern string
`public\s+.*\b<name>\s*[<(]`. -/
def methodImplPattern (name : String) : String :=
  "public\\s+.*\\b" ++ name ++ "\\s*[<(]"

/-- `filterUnimplementedMembers`'s property pattern string
`public\s+.*\b<name>\s*{`. -/
def propertyImplPattern (name : String) : String :=
  "public\\s+.*\\b" ++ name ++ "\\s*\x7b"

/-- `filterUnimplementedMembers`'s event pattern string
`public\s+event\s+.*\b<name>\b`. -/
def eventImplPattern (name : String) : String :=
  "public\\s+event\\s+.*\\b" ++ name ++ "\\b"

/-!  ## Existence scanners for the `.test` call sites

`RegExp.test` only reveals whether some match exists, so these call sites
are embedded as direct existence checks over all start positions and all
splits of the `\s+`/`.*` runs; this decides exactly the same predicate as
the corresponding backtracking search. -/

/-- Consume a literal character sequence, tracking the last consumed
character. -/
def dropLits : List Char → Option Char → List Char →
    Option (Option Char × List Char)
  | [], prev, l => some (prev, l)
  | p :: ps, _, l =>
    match l with
    | c :: rest => if c == p then dropLits ps (some c) rest else none
    | [] => none

/-- `\b` between `prev` and the text ahead. -/
def wordBoundaryAt (prev : Option Char) (l : List Char) : Bool :=
  isWordO prev != isWordO l.head?

/-- A match of `\s*[X...]` (whitespace run, then one of `targets`) starting
here.  The targets are never whitespace, so the greedy run is forced. -/
def wsThenOneOf (targets : List Char) : List Char → Bool
  | c :: rest => if isJsWs c then wsThenOneOf targets rest else targets.contains c
  | [] => false

/-- A match of `\bNAME\s*[<(]` starting here. -/
def nameThenWsBracket (name : List Char) (prev : Option Char)
    (l : List Char) : Bool :=
  wordBoundaryAt prev (name ++ l) &&
    match dropLits name prev l with
    | some (_, rest) => wsThenOneOf ['<', '('] rest
    | none => false

/-- A match of `\bNAME\s*{` starting here. -/
def nameThenWsBrace (name : List Char) (prev : Option Char)
    (l : List Char) : Bool :=
  wordBoundaryAt prev (name ++ l) &&
    match dropLits name prev l with
    | some (_, rest) => wsThenOneOf ['\x7b'] rest
    | none => false

/-- A match of `\bNAME\b` starting here. -/
def nameThenBoundary (name : List Char) (prev : Option Char)
    (l : List Char) : Bool :=
  wordBoundaryAt prev (name ++ l) &&
    match dropLits name prev l with
    | some (prev2, rest) => wordBoundaryAt prev2 rest
    | none => false

/-- Does `.*` followed by `p` match starting here (some dot-run then `p`)? -/
def dotStarThen (p : Option Char → List Char → Bool) :
    Option Char → List Char → Bool
  | prev, l =>
    p prev l ||
      match l with
      | [] => false
      | c :: rest => isDotChar c && dotStarThen p (some c) rest

/-- Does `\s*` followed by `p` match starting here? -/
def wsStarThen (p : Option Char → List Char → Bool) :
    Option Char → List Char → Bool
  | prev, l =>
    p prev l ||
      match l with
      | [] => false
      | c :: rest => isJsWs c && wsStarThen p (some c) rest

/-- Does the attempt succeed at some start position (as `RegExp.test`)? -/
def searchT (att : Option Char → List Char → Bool) :
    Option Char → List Char → Bool
  | prev, l =>
    att prev l ||
      match l with
      | [] => false
      | c :: rest => searchT att (some c) rest

/-- A match of `public\s+.*\bNAME\s*[<(]` starting here. -/
def methodImplAttempt (name : List Char) (prev : Option Char)
    (l : List Char) : Bool :=
  match dropLits ("public".data) prev l with
  | none => false
  | some (_, l1) =>
    match l1 with
    | [] => false
    | c :: rest =>
      isJsWs c && wsStarThen (dotStarThen (nameThenWsBracket name)) (some c) rest

/-- A match of `public\s+.*\bNAME\s*{` starting here. -/
def propertyImplAttempt (name : List Char) (prev : Option Char)
    (l : List Char) : Bool :=
  match dropLits ("public".data) prev l with
  | none => false
  | some (_, l1) =>
    match l1 with
    | [] => false
    | c :: rest =>
      isJsWs c && wsStarThen (dotStarThen (nameThenWsBrace name)) (some c) rest

/-- A match of `public\s+event\s+.*\bNAME\b` starting here. -/
def eventImplAttempt (name : List Char) (prev : Option Char)
    (l : List Char) : Bool :=
  match dropLits ("public".data) prev l with
  | none => false
  | some (_, l1) =>
    match l1 with
    | [] => false
    | c :: rest =>
      isJsWs c && wsStarThen (fun p2 l2 =>
        match dropLits ("event".data) p2 l2 with
        | none => false
        | some (_, l3) =>
          match l3 with
          | [] => false
          | c3 :: rest3 =>
            isJsWs c3 &&
              wsStarThen (dotStarThen (nameThenBoundary name)) (some c3) rest3)
        (some c) rest

/-- `methodPattern.test(classCode)` of `filterUnimplementedMembers`. -/
def methodImplTest (name classCode : String) : Bool :=
  searchT (methodImplAttempt name.data) none classCode.data

/-- `propertyPattern.test(classCode)` of `filterUnimplementedMembers`. -/
def propertyImplTest (name classCode : String) : Bool :=
  searchT (propertyImplAttempt name.data) none classCode.data

/-- `eventPattern.test(classCode)` of `filterUnimplementedMembers`. -/
def eventImplTest (name classCode : String) : Bool :=
  searchT (eventImplAttempt name.data) none classCode.data

/-!  ## Core model functions -/

/-- JS `match[i] || null`: the empty string is falsy, so an empty capture
collapses to `null`. -/
def jsOrNone : Option (List Char) → Option (List Char)
  | some [] => none
  | o => o

/-- `extractNamespace` (csharpParser.ts): first match of
`/namespace\s+([\w.]+)/`, returning group 1. -/
def extractNamespace (code : String) : Option String :=
  match reSearch namespaceRE none code.data with
  | some (_, _, caps, _) => some (⟨capsGetD caps 1⟩ : String)
  | none => none

/-- `extractUsings` (csharpParser.ts): all matches of `/^using\s+.*;/gm`,
joined with newlines ("" when there are none). -/
def extractUsings (code : String) : String :=
  ⟨List.intercalate ("\n".data) ((reMatchAll usingsRE code.data).map
    (fun m => m.1))⟩

/-- The raw matches of `CSharpPatterns.method` over the code, as
`MethodInfo` records (before the constructor-name filter). -/
def rawMethods (code : String) : List MethodInfo :=
  (reMatchAll methodRE code.data).map (fun m =>
    { returnType := ⟨capsGetD m.2 1⟩
      name := ⟨capsGetD m.2 2⟩
      genericParams := (jsOrNone (lookupCaps m.2 3)).map
        (fun g => (⟨g⟩ : String))
      parameters := ⟨capsGetD m.2 4⟩ })

/-- `extractMethods` (csharpParser.ts): pattern matches filtered by
`!excludeClassName || match[2] !== excludeClassName` (note that the empty
string is falsy in JS, hence the `n == ""` disjunct). -/
def extractMethods (code : String) (excludeClassName : Option String) :
    List MethodInfo :=
  (rawMethods code).filter (fun m =>
    match excludeClassName with
    | none => true
    | some n => n == "" || m.name != n)

/-- `extractEvents` (csharpParser.ts). -/
def extractEvents (code : String) : List EventInfo :=
  (reMatchAll eventRE code.data).map (fun m =>
    { type := ⟨capsGetD m.2 1⟩, name := ⟨capsGetD m.2 2⟩ })

/-- The interface-form method line generated by `generateInterfaceCode`:
four spaces, `returnType name<generic>(params);`. -/
def methodSignatureLine (m : MethodInfo) : String :=
  "    " ++ m.returnType ++ " " ++ m.name ++
    (match m.genericParams with
     | some g => "<" ++ g ++ ">"
     | none => "") ++ "(" ++ m.parameters ++ ");"

/-- The interface-form event line generated by `generateInterfaceCode`. -/
def eventSignatureLine (e : EventInfo) : String :=
  "    event " ++ e.type ++ " " ++ e.name ++ ";"

/-- `generateInterfaceCode` (interfaceExtractor.ts). -/
def generateInterfaceCode (classText interfaceName currentFileName : String) :
    ExtractionResult :=
  let className := replaceFirst currentFileName (".cs") ("")
  let actualInterfaceName := posixBasename interfaceName
  let ns := extractNamespace classText
  let usings := extractUsings classText
  let methods := extractMethods classText (some className)
  let interfaceMethods := methods.map methodSignatureLine
  let events := extractEvents classText
  let interfaceEvents := events.map eventSignatureLine
  let allInterfaceMembers := interfaceMethods ++ interfaceEvents
  let interfaceCode :=
    match ns with
    | some n =>
      usings ++ "\n\nnamespace " ++ n ++ " \n\x7b\n\tpublic interface " ++
        actualInterfaceName ++ " \n\t\x7b\n\t" ++
        String.intercalate ("\n\t") allInterfaceMembers ++ "\n\t\x7d\n\x7d"
    | none =>
      usings ++ "\n\npublic interface " ++ actualInterfaceName ++
        " \n\x7b\n" ++ String.intercalate ("\n") allInterfaceMembers ++
        "\n\x7d"
  { interfaceName := actualInterfaceName
    interfaceCode := interfaceCode
    namespaceName := ns }

/-- `updateClassToImplementInterface` (interfaceExtractor.ts).  The two
`new RegExp` constructions throw a `SyntaxError` when the interpolated class
name produces an invalid pattern; this is the `.error` case.  A JS
`replace` with a non-global regex rewrites the leftmost match only, and its
replacement here is built from the captured groups, so the result is
`before ++ replacement ++ rest` around the leftmost match. -/
def updateClassToImplementInterface (classText className interfaceName :
    String) : Except String String :=
  if jsRegexValid (primaryClassPattern className) then
    match reSearch (primaryClassRE className.data) none classText.data with
    | some (before, _, caps, rest) =>
      let classDeclarationPart := capsGetD caps 1
      match lookupCaps caps 3 with
      | some existingInheritanceWithColon =>
        if containsSub existingInheritanceWithColon interfaceName.data then
          .ok classText
        else
          .ok ⟨before ++ classDeclarationPart ++
            existingInheritanceWithColon ++ (", ".data) ++
            interfaceName.data ++ rest⟩
      | none =>
        .ok ⟨before ++ classDeclarationPart ++ (" : ".data) ++
          interfaceName.data ++ rest⟩
    | none =>
      if jsRegexValid (regularClassPattern className) then
        match reSearch (regularClassRE className.data) none classText.data with
        | some (before, _, caps, rest) =>
          let classDeclarationPart := capsGetD caps 1
          match lookupCaps caps 2 with
          | some existingInheritanceWithColon =>
            if containsSub existingInheritanceWithColon interfaceName.data then
              .ok classText
            else
              .ok ⟨before ++ classDeclarationPart ++
                existingInheritanceWithColon ++ (", ".data) ++
                interfaceName.data ++ rest⟩
          | none =>
            .ok ⟨before ++ classDeclarationPart ++ (" : ".data) ++
              interfaceName.data ++ rest⟩
        | none => .ok classText
      else .error ("SyntaxError: Invalid regular expression")
  else .error ("SyntaxError: Invalid regular expression")

/-- The region of the class header matched by
`updateClassToImplementInterface` (the same search sequence it performs):
`some (before, matched, after)` when one of the two header regexes finds a
leftmost match. -/
def headerMatchRegion (classText className : String) :
    Option (List Char × List Char × List Char) :=
  if jsRegexValid (primaryClassPattern className) then
    match reSearch (primaryClassRE className.data) none classText.data with
    | some (before, m, _, rest) => some (before, m, rest)
    | none =>
      if jsRegexValid (regularClassPattern className) then
        match reSearch (regularClassRE className.data) none classText.data with
        | some (before, m, _, rest) => some (before, m, rest)
        | none => none
      else none
  else none

/-- The inheritance-list group (colon included) captured by the header regex
that `updateClassToImplementInterface` ends up using — `match[3]` of the
primary-constructor regex, or `match[2]` of the plain regex. -/
def headerInheritanceGroup (classText className : String) :
    Option (List Char) :=
  if jsRegexValid (primaryClassPattern className) then
    match reSearch (primaryClassRE className.data) none classText.data with
    | some (_, _, caps, _) => lookupCaps caps 3
    | none =>
      if jsRegexValid (regularClassPattern className) then
        match reSearch (regularClassRE className.data) none classText.data with
        | some (_, _, caps, _) => lookupCaps caps 2
        | none => none
      else none
  else none

/-- The body of the interface found by `parseInterfaceMembers`'s balanced
brace scan: characters up to (excluding) the brace that returns the count to
zero.  When the braces never balance the source leaves `endIndex` at
`startIndex`, i.e. an empty body. -/
def braceBody : Nat → List Char → Option (List Char)
  | _, [] => none
  | bc, c :: rest =>
    let bc2 := if c == '\x7b' then bc + 1 else if c == '\x7d' then bc - 1
      else bc
    if bc2 == 0 then some []
    else (braceBody bc2 rest).map (fun t => c :: t)

/-- `parseInterfaceMembers` (implementInterface.ts). -/
def parseInterfaceMembers (interfaceCode : String) : InterfaceMembers :=
  match reSearch ifaceStartRE none interfaceCode.data with
  | none => { methods := [], properties := [], events := [] }
  | some (_, _, _, rest) =>
    let interfaceBody := (braceBody 1 rest).getD []
    { methods := (reMatchAll ifaceMethodRE interfaceBody).map (fun m =>
        { returnType := ⟨capsGetD m.2 1⟩
          name := ⟨capsGetD m.2 2⟩
          genericParams := (jsOrNone (lookupCaps m.2 3)).map
            (fun g => (⟨g⟩ : String))
          parameters := ⟨capsGetD m.2 4⟩ })
      properties := (reMatchAll ifacePropertyRE interfaceBody).map (fun m =>
        { type := ⟨jsTrimList (capsGetD m.2 1)⟩
          name := ⟨capsGetD m.2 2⟩ })
      events := (reMatchAll ifaceEventRE interfaceBody).map (fun m =>
        { type := ⟨capsGetD m.2 1⟩, name := ⟨capsGetD m.2 2⟩ }) }

/-- `filterUnimplementedMembers` (implementInterface.ts).  Each member name
is interpolated into a `new RegExp` pattern, which throws on an invalid
pattern (the `.error` case); otherwise members whose test succeeds are
dropped. -/
def filterUnimplementedMembers (members : InterfaceMembers)
    (classCode : String) : Except String InterfaceMembers :=
  if (members.methods.all (fun m => jsRegexValid (methodImplPattern m.name)) &&
      members.properties.all
        (fun p => jsRegexValid (propertyImplPattern p.name)) &&
      members.events.all (fun e => jsRegexValid (eventImplPattern e.name)))
  then
    .ok { methods := members.methods.filter
            (fun m => !methodImplTest m.name classCode)
          properties := members.properties.filter
            (fun p => !propertyImplTest p.name classCode)
          events := members.events.filter
            (fun e => !eventImplTest e.name classCode) }
  else .error ("SyntaxError: Invalid regular expression")

/-- `generateMethodSignature` (addToInterface.ts). -/
def generateMethodSignature (m : MethodInfo) : String :=
  m.returnType ++ " " ++ m.name ++
    (match m.genericParams with
     | some g => "<" ++ g ++ ">"
     | none => "") ++ "(" ++ m.parameters ++ ");"

/-- `generatePropertySignature` (addToInterface.ts). -/
def generatePropertySignature (p : PropertyInfo) : String :=
  p.type ++ " " ++ p.name ++ " \x7b get; set; \x7d"

/-- `addMemberToInterface` (addToInterface.ts).

The duplicate test builds `new RegExp("\\b" + memberName + "\\s*[<(]")`;
`memberName` is text captured by `(\w+)`, so that pattern is always valid
and matches the name literally — the test is embedded as an existence scan.
The source computes the text before the match as
`interfaceCode.indexOf(interfaceMatch[0])`; the matched pattern has no
anchors, boundaries or lookarounds, so the matched text cannot occur before
the leftmost match position, and `indexOf(match[0])` is the match position —
the `before`/`rest` of the leftmost search.  The source's `closingIndent` is
`"" ` on both branches of its ternary. -/
def addMemberToInterface (interfaceCode memberSignature : String) : String :=
  let dup :=
    match reSearch memberNameRE none memberSignature.data with
    | some (_, _, caps, _) =>
      searchT (nameThenWsBracket (capsGetD caps 1)) none interfaceCode.data
    | none => false
  if dup then interfaceCode
  else
    match reSearch addIfaceRE none interfaceCode.data with
    | none => interfaceCode
    | some (before, _, caps, rest) =>
      let interfaceStart := capsGetD caps 1
      let interfaceBody := capsGetD caps 2
      let interfaceEnd := capsGetD caps 3
      let indent :=
        match reSearch indentRE none interfaceBody with
        | some (_, _, caps2, _) => capsGetD caps2 1
        | none => "    ".data
      let hasContent := !(jsTrimList interfaceBody).isEmpty
      let newBody :=
        if hasContent then
          jsTrimEndList interfaceBody ++ ('\n' :: indent) ++
            memberSignature.data ++ ['\n']
        else ('\n' :: indent) ++ memberSignature.data ++ ['\n']
      ⟨before ++ interfaceStart ++ newBody ++ interfaceEnd ++ rest⟩

/-- `addMethodToInterface` (addToInterface.ts). -/
def addMethodToInterface (interfaceCode : String) (m : MethodInfo) : String :=
  addMemberToInterface interfaceCode (generateMethodSignature m)

/-- `addPropertyToInterface` (addToInterface.ts). -/
def addPropertyToInterface (interfaceCode : String) (p : PropertyInfo) :
    String :=
  addMemberToInterface interfaceCode (generatePropertySignature p)

/-!  ## Structural lemmas about the engine -/

/-- Every outcome's rest is a suffix of the subject: matching only consumes
a prefix. -/
theorem reM_rest_suffix : ∀ (f : Nat) (e : RE) (prev : Option Char)
    (l : List Char) (caps : Caps) (o : Option Char × List Char × Caps),
    o ∈ reM f e prev l caps → ∃ p, l = p ++ o.2.1 := by
  intro f
  induction f with
  | zero => intro e prev l caps o h; simp [reM] at h
  | succ f ih =>
    intro e prev l caps o h
    cases e with
    | eps =>
      rw [reM, List.mem_singleton] at h
      exact ⟨[], by simp [h]⟩
    | lit c =>
      cases l with
      | nil => simp [reM] at h
      | cons c2 rest =>
        rw [reM] at h
        split at h
        · rw [List.mem_singleton] at h
          exact ⟨[c2], by simp [h]⟩
        · simp at h
    | cls neg rs =>
      cases l with
      | nil => simp [reM] at h
      | cons c2 rest =>
        rw [reM] at h
        split at h
        · rw [List.mem_singleton] at h
          exact ⟨[c2], by simp [h]⟩
        · simp at h
    | seq a b =>
      rw [reM, List.mem_flatMap] at h
      obtain ⟨o1, h1, h2⟩ := h
      obtain ⟨p1, hp1⟩ := ih a prev l caps o1 h1
      obtain ⟨p2, hp2⟩ := ih b o1.1 o1.2.1 o1.2.2 o h2
      exact ⟨p1 ++ p2, by rw [hp1, hp2, List.append_assoc]⟩
    | alt a b =>
      rw [reM, List.mem_append] at h
      rcases h with h | h
      · exact ih a prev l caps o h
      · exact ih b prev l caps o h
    | star lz a =>
      rw [reM] at h
      have hd : o ∈ (reM f a prev l caps).flatMap (fun o1 =>
          if o1.2.1.length < l.length then reM f (.star lz a) o1.1 o1.2.1 o1.2.2
          else []) → ∃ p, l = p ++ o.2.1 := by
        intro hm
        rw [List.mem_flatMap] at hm
        obtain ⟨o1, h1, h2⟩ := hm
        split at h2
        · obtain ⟨p1, hp1⟩ := ih a prev l caps o1 h1
          obtain ⟨p2, hp2⟩ := ih (.star lz a) o1.1 o1.2.1 o1.2.2 o h2
          exact ⟨p1 ++ p2, by rw [hp1, hp2, List.append_assoc]⟩
        · simp at h2
      split at h
      · rcases List.mem_cons.mp h with h | h
        · exact ⟨[], by simp [h]⟩
        · exact hd h
      · rcases List.mem_append.mp h with h | h
        · exact hd h
        · rw [List.mem_singleton] at h
          exact ⟨[], by simp [h]⟩
    | plus a =>
      rw [reM, List.mem_flatMap] at h
      obtain ⟨o1, h1, h2⟩ := h
      obtain ⟨p1, hp1⟩ := ih a prev l caps o1 h1
      obtain ⟨p2, hp2⟩ := ih (.star false a) o1.1 o1.2.1 o1.2.2 o h2
      exact ⟨p1 ++ p2, by rw [hp1, hp2, List.append_assoc]⟩
    | opt a =>
      rw [reM, List.mem_append] at h
      rcases h with h | h
      · exact ih a prev l caps o h
      · rw [List.mem_singleton] at h
        exact ⟨[], by simp [h]⟩
    | grp i a =>
      rw [reM, List.mem_map] at h
      obtain ⟨o1, h1, h2⟩ := h
      obtain ⟨p1, hp1⟩ := ih a prev l caps o1 h1
      refine ⟨p1, ?_⟩
      have h3 : o.2.1 = o1.2.1 := by rw [← h2]
      rw [h3]; exact hp1
    | look a =>
      rw [reM] at h
      split at h
      · simp at h
      · rw [List.mem_singleton] at h
        exact ⟨[], by simp [h]⟩
    | wordB =>
      rw [reM] at h
      split at h
      · rw [List.mem_singleton] at h
        exact ⟨[], by simp [h]⟩
      · simp at h
    | bol =>
      cases prev with
      | none =>
        rw [reM, List.mem_singleton] at h
        exact ⟨[], by simp [h]⟩
      | some c =>
        rw [reM] at h
        split at h
        · rw [List.mem_singleton] at h
          exact ⟨[], by simp [h]⟩
        · simp at h

/-- `reMatchAt` decomposes the subject as matched text plus rest. -/
theorem reMatchAt_split (e : RE) (prev : Option Char) (l : List Char)
    (m : List Char) (caps : Caps) (rest : List Char)
    (h : reMatchAt e prev l = some (m, caps, rest)) : m ++ rest = l := by
  unfold reMatchAt at h
  split at h
  · rename_i o os heq
    simp only [Option.some.injEq, Prod.mk.injEq] at h
    obtain ⟨hm, hcaps, hrest⟩ := h
    obtain ⟨p, hp⟩ := reM_rest_suffix (reFuel l) e prev l [] o
      (by rw [heq]; exact List.mem_cons_self _ _)
    rw [← hm, ← hrest]
    rw [hp]
    have h4 : (p ++ o.2.1).length - o.2.1.length = p.length := by
      simp [List.length_append]
    rw [h4, List.take_left]
  · simp at h

/-- `reSearch` decomposes the subject as before, matched and rest. -/
theorem reSearch_split (e : RE) : ∀ (prev : Option Char) (l : List Char)
    (b m : List Char) (caps : Caps) (rest : List Char),
    reSearch e prev l = some (b, m, caps, rest) → b ++ m ++ rest = l := by
  intro prev l
  induction l generalizing prev with
  | nil =>
    intro b m caps rest h
    rw [reSearch] at h
    split at h
    · rename_i m2 caps2 rest2 heq
      have hsp := reMatchAt_split e prev [] m2 caps2 rest2 heq
      simp only [Option.some.injEq, Prod.mk.injEq] at h
      obtain ⟨hb, hm, hcaps, hrest⟩ := h
      subst hb; subst hm; subst hrest
      simpa using hsp
    · exact Option.noConfusion h
  | cons c t ih =>
    intro b m caps rest h
    rw [reSearch] at h
    split at h
    · rename_i m2 caps2 rest2 heq
      have hsp := reMatchAt_split e prev (c :: t) m2 caps2 rest2 heq
      simp only [Option.some.injEq, Prod.mk.injEq] at h
      obtain ⟨hb, hm, hcaps, hrest⟩ := h
      subst hb; subst hm; subst hrest
      simpa using hsp
    · cases hrec : reSearch e (some c) t with
      | none => rw [hrec] at h; simp at h
      | some r =>
        obtain ⟨b2, m2, caps2, rest2⟩ := r
        rw [hrec] at h
        have hr := ih (some c) b2 m2 caps2 rest2 hrec
        simp only [Option.map_some', Option.some.injEq, Prod.mk.injEq] at h
        obtain ⟨hb, hm, hcaps, hrest⟩ := h
        subst hb; subst hm; subst hrest
        simp only [List.cons_append]
        rw [hr]

/-- An infix of `pre` is an infix of `pre ++ suf`. -/
theorem infix_append_right {U pre : List Char} (suf : List Char)
    (h : U <:+: pre) : U <:+: pre ++ suf := by
  obtain ⟨s, t, hst⟩ := h
  exact ⟨s, t ++ suf, by rw [← hst]; simp [List.append_assoc]⟩

/-- An infix of `post` is an infix of `pre ++ post`. -/
theorem infix_append_left {U post : List Char} (pre : List Char)
    (h : U <:+: post) : U <:+: pre ++ post := by
  obtain ⟨s, t, hst⟩ := h
  exact ⟨pre ++ s, t, by rw [← hst]; simp [List.append_assoc]⟩

/-- Replacing the middle of a concatenation preserves any infix of the two
flanks. -/
theorem infix_mid {U pre post : List Char} (mid2 : List Char)
    (h : U <:+: pre ∨ U <:+: post) : U <:+: pre ++ (mid2 ++ post) := by
  rcases h with h | h
  · exact infix_append_right _ h
  · exact infix_append_left _ (infix_append_left _ h)

/-- The header-match region really is a decomposition of the class text. -/
theorem headerMatchRegion_concat (classText className : String)
    (pre mid post : List Char)
    (h : headerMatchRegion classText className = some (pre, mid, post)) :
    pre ++ mid ++ post = classText.data := by
  unfold headerMatchRegion at h
  by_cases hv1 : jsRegexValid (primaryClassPattern className) = true
  · rw [if_pos hv1] at h
    cases hs1 : reSearch (primaryClassRE className.data) none classText.data
      with
    | some r =>
      obtain ⟨b, m, caps, rest⟩ := r
      rw [hs1] at h
      simp only [Option.some.injEq, Prod.mk.injEq] at h
      obtain ⟨hb, hm, hrest⟩ := h
      subst hb; subst hm; subst hrest
      exact reSearch_split _ _ _ _ _ _ _ hs1
    | none =>
      rw [hs1] at h
      by_cases hv2 : jsRegexValid (regularClassPattern className) = true
      · rw [if_pos hv2] at h
        cases hs2 : reSearch (regularClassRE className.data) none
          classText.data with
        | some r =>
          obtain ⟨b, m, caps, rest⟩ := r
          rw [hs2] at h
          simp only [Option.some.injEq, Prod.mk.injEq] at h
          obtain ⟨hb, hm, hrest⟩ := h
          subst hb; subst hm; subst hrest
          exact reSearch_split _ _ _ _ _ _ _ hs2
        | none => rw [hs2] at h; exact Option.noConfusion h
      · rw [if_neg hv2] at h; exact Option.noConfusion h
  · rw [if_neg hv1] at h; exact Option.noConfusion h

/-- Any infix of the first or last of six concatenated pieces survives. -/
theorem infix_six {U b x1 x2 x3 x4 rest : List Char}
    (h : U <:+: b ∨ U <:+: rest) :
    U <:+: b ++ x1 ++ x2 ++ x3 ++ x4 ++ rest := by
  rcases h with h | h
  · obtain ⟨s, t, hst⟩ := h
    refine ⟨s, t ++ x1 ++ x2 ++ x3 ++ x4 ++ rest, ?_⟩
    rw [← hst]; simp [List.append_assoc]
  · obtain ⟨s, t, hst⟩ := h
    refine ⟨b ++ x1 ++ x2 ++ x3 ++ x4 ++ s, t, ?_⟩
    rw [← hst]; simp [List.append_assoc]

/-- Any infix of the first or last of five concatenated pieces survives. -/
theorem infix_five {U b x1 x2 x3 rest : List Char}
    (h : U <:+: b ∨ U <:+: rest) :
    U <:+: b ++ x1 ++ x2 ++ x3 ++ rest := by
  rcases h with h | h
  · obtain ⟨s, t, hst⟩ := h
    refine ⟨s, t ++ x1 ++ x2 ++ x3 ++ rest, ?_⟩
    rw [← hst]; simp [List.append_assoc]
  · obtain ⟨s, t, hst⟩ := h
    refine ⟨b ++ x1 ++ x2 ++ x3 ++ s, t, ?_⟩
    rw [← hst]; simp [List.append_assoc]

/-- C4.  Structure preservation of the class-header rewrite: whenever the
header search of `updateClassToImplementInterface` matches, decomposing the
class text as `pre ++ matched ++ post`, every unrelated text fragment `U`
that lies textually outside the matched header region (an infix of `pre` or
of `post`) still occurs, character for character, in the function's output;
only the matched header region is rewritten. -/
theorem updateClass_structure_preservation
    (classText className interfaceName : String)
    (pre mid post U : List Char)
    (hreg : headerMatchRegion classText className = some (pre, mid, post))
    (hU : U <:+: pre ∨ U <:+: post)
    (out : String)
    (hout : updateClassToImplementInterface classText className interfaceName
      = .ok out) :
    U <:+: out.data := by
  have hconcat := headerMatchRegion_concat classText className pre mid post
    hreg
  have hin : U <:+: classText.data := by
    rw [← hconcat, List.append_assoc]
    exact infix_mid _ hU
  unfold updateClassToImplementInterface at hout
  unfold headerMatchRegion at hreg
  by_cases hv1 : jsRegexValid (primaryClassPattern className) = true
  · rw [if_pos hv1] at hout hreg
    cases hs1 : reSearch (primaryClassRE className.data) none classText.data
      with
    | some r =>
      obtain ⟨b, m, caps, rest⟩ := r
      rw [hs1] at hout hreg
      dsimp only [] at hout
      simp only [Option.some.injEq, Prod.mk.injEq] at hreg
      obtain ⟨hb, hm, hrest⟩ := hreg
      subst hb; subst hm; subst hrest
      cases hl : lookupCaps caps 3 with
      | some inh =>
        rw [hl] at hout
        split at hout
        · rename_i x inh2 heq2
          injection heq2 with heq2
          subst heq2
          split at hout
          · injection hout with hout
            subst hout
            exact hin
          · injection hout with hout
            subst hout
            exact infix_six hU
        · rename_i x heq2
          exact Option.noConfusion heq2
      | none =>
        rw [hl] at hout
        split at hout
        · rename_i x inh2 heq2
          exact Option.noConfusion heq2
        · injection hout with hout
          subst hout
          exact infix_five hU
    | none =>
      rw [hs1] at hout hreg
      by_cases hv2 : jsRegexValid (regularClassPattern className) = true
      · rw [if_pos hv2] at hout hreg
        cases hs2 : reSearch (regularClassRE className.data) none
          classText.data with
        | some r =>
          obtain ⟨b, m, caps, rest⟩ := r
          rw [hs2] at hout hreg
          dsimp only [] at hout
          simp only [Option.some.injEq, Prod.mk.injEq] at hreg
          obtain ⟨hb, hm, hrest⟩ := hreg
          subst hb; subst hm; subst hrest
          cases hl : lookupCaps caps 2 with
          | some inh =>
            rw [hl] at hout
            split at hout
            · rename_i x inh2 heq2
              injection heq2 with heq2
              subst heq2
              split at hout
              · injection hout with hout
                subst hout
                exact hin
              · injection hout with hout
                subst hout
                exact infix_six hU
            · rename_i x heq2
              exact Option.noConfusion heq2
          | none =>
            rw [hl] at hout
            split at hout
            · rename_i x inh2 heq2
              exact Option.noConfusion heq2
            · injection hout with hout
              subst hout
              exact infix_five hU
        | none => rw [hs2] at hreg; exact Option.noConfusion hreg
      · rw [if_neg hv2] at hreg; exact Option.noConfusion hreg
  · rw [if_neg hv1] at hout hreg
    exact Option.noConfusion hreg

/-- The duplicate guard as implemented: whenever the inheritance-list group
captured by the header regex that `updateClassToImplementInterface` uses
(the source's `existingInheritanceWithColon`) textually contains the target
interface name, the function returns its input unchanged.  Note that this
captured group can truncate a comma-space list, so this is weaker than a
guard on the declaration's whole inheritance list. -/
theorem updateClass_duplicate_guard
    (classText className interfaceName : String) (g : List Char)
    (hg : headerInheritanceGroup classText className = some g)
    (hc : containsSub g interfaceName.data = true) :
    updateClassToImplementInterface classText className interfaceName
      = .ok classText := by
  unfold updateClassToImplementInterface
  unfold headerInheritanceGroup at hg
  split
  · rename_i hv1
    rw [if_pos hv1] at hg
    split
    · rename_i b m caps rest heq
      rw [heq] at hg
      dsimp only [] at hg
      dsimp only []
      rw [hg]
      dsimp only []
      rw [if_pos hc]
    · rename_i heq
      rw [heq] at hg
      dsimp only [] at hg
      split
      · rename_i hv2
        rw [if_pos hv2] at hg
        split
        · rename_i b m caps rest heq2
          rw [heq2] at hg
          dsimp only [] at hg
          dsimp only []
          rw [hg]
          dsimp only []
          rw [if_pos hc]
        · rfl
      · rename_i hv2
        rw [if_neg hv2] at hg
        exact Option.noConfusion hg
  · rename_i hv1
    rw [if_neg hv1] at hg
    exact Option.noConfusion hg

/-- A word character is none of the pattern metacharacters. -/
theorem word_char_ne (c x : Char) (hw : isWordChar c = true)
    (hx : isWordChar x = false) : (c == x) = false := by
  cases hbe : c == x with
  | false => rfl
  | true =>
    have hcx : c = x := eq_of_beq hbe
    rw [hcx, hx] at hw
    exact Bool.noConfusion hw

/-- Stepping `chk` in normal mode over a word character: it is a plain atom.
-/
theorem chk_word_step (c : Char) (rest : List Char) (d : Nat) (la : LA)
    (hw : isWordChar c = true) :
    chk .normal (c :: rest) d la = chk .normal rest d .yes := by
  have h1 := word_char_ne c ('\\') hw (by decide)
  have h2 := word_char_ne c ('[') hw (by decide)
  have h3 := word_char_ne c ('(') hw (by decide)
  have h4 := word_char_ne c (')') hw (by decide)
  have h5 := word_char_ne c ('*') hw (by decide)
  have h6 := word_char_ne c ('+') hw (by decide)
  have h7 := word_char_ne c ('?') hw (by decide)
  have h8 := word_char_ne c ('|') hw (by decide)
  have h9 := word_char_ne c ('^') hw (by decide)
  have h10 := word_char_ne c ('$') hw (by decide)
  rw [chk]
  simp [h1, h2, h3, h4, h5, h6, h7, h8, h9, h10]

/-- Walking `chk` in normal mode over a run of word characters leaves the
depth unchanged and ends in the atom state (unless the run is empty). -/
theorem chk_word_append : ∀ (name : List Char),
    name.all isWordChar = true →
    ∀ (suffix : List Char) (d : Nat) (la : LA),
    chk .normal (name ++ suffix) d la =
      chk .normal suffix d (if name.isEmpty then la else .yes) := by
  intro name
  induction name with
  | nil => intro _ suffix d la; simp
  | cons c t ih =>
    intro hall suffix d la
    rw [List.all_cons, Bool.and_eq_true] at hall
    rw [List.cons_append, chk_word_step c (t ++ suffix) d la hall.1,
      ih hall.2 suffix d .yes]
    simp

/-- The primary-constructor header pattern compiles for identifier class
names. -/
theorem primaryClassPattern_valid (n : String)
    (h : n.data.all isWordChar = true) :
    jsRegexValid (primaryClassPattern n) = true := by
  have e : jsRegexValid (primaryClassPattern n)
      = chk .normal (n.data ++
        ("\\(([^)]*)\\))(\\s*:\\s*([^\\s\x7b]+(?:\\s*,\\s*[^\\s\x7b]+)*))?".data))
        1 .quant := rfl
  rw [e, chk_word_append n.data h]
  cases hn : n.data.isEmpty <;> decide

/-- The plain header pattern compiles for identifier class names. -/
theorem regularClassPattern_valid (n : String)
    (h : n.data.all isWordChar = true) :
    jsRegexValid (regularClassPattern n) = true := by
  have e : jsRegexValid (regularClassPattern n)
      = chk .normal (n.data ++
        (")(\\s*:\\s*([^\\s\x7b]+(?:\\s*,\\s*[^\\s\x7b]+)*))?".data))
        1 .quant := rfl
  rw [e, chk_word_append n.data h]
  cases hn : n.data.isEmpty <;> decide

/-- The method-implementation test pattern compiles for identifier names. -/
theorem methodImplPattern_valid (n : String)
    (h : n.data.all isWordChar = true) :
    jsRegexValid (methodImplPattern n) = true := by
  have e : jsRegexValid (methodImplPattern n)
      = chk .normal (n.data ++ ("\\s*[<(]".data)) 0 .yes := rfl
  rw [e, chk_word_append n.data h]
  cases hn : n.data.isEmpty <;> decide

/-- The property-implementation test pattern compiles for identifier names.
-/
theorem propertyImplPattern_valid (n : String)
    (h : n.data.all isWordChar = true) :
    jsRegexValid (propertyImplPattern n) = true := by
  have e : jsRegexValid (propertyImplPattern n)
      = chk .normal (n.data ++ ("\\s*\x7b".data)) 0 .yes := rfl
  rw [e, chk_word_append n.data h]
  cases hn : n.data.isEmpty <;> decide

/-- The event-implementation test pattern compiles for identifier names. -/
theorem eventImplPattern_valid (n : String)
    (h : n.data.all isWordChar = true) :
    jsRegexValid (eventImplPattern n) = true := by
  have e : jsRegexValid (eventImplPattern n)
      = chk .normal (n.data ++ ("\\b".data)) 0 .yes := rfl
  rw [e, chk_word_append n.data h]
  cases hn : n.data.isEmpty <;> decide

/-- C2 (counterexample).  The claim "every core function always returns a
value and never throws, for all string inputs" fails: with class name `(`
the pattern interpolated into `new RegExp` is not valid regex syntax
(an unterminated group), so `updateClassToImplementInterface` throws a
`SyntaxError` instead of returning a value. -/
theorem updateClass_throws_on_metacharacter_name :
    isOkE (updateClassToImplementInterface ("public class A \x7b \x7d") ("(")
      ("IA")) = false := by
  decide

/-- C2 (amended).  Totality on the guarded domain: the only throwing
operation in the core is `new RegExp` on an interpolated pattern, so as long
as the interpolated names (the class name for
`updateClassToImplementInterface`, the member names for
`filterUnimplementedMembers`) consist of word characters — which is the
shape every name extracted by the core's own `(\w+)` patterns has — both
functions return a value; every other core function of this embedding is
total for all inputs by construction. -/
theorem core_total_on_identifier_names
    (classText className interfaceName : String)
    (members : InterfaceMembers) (classCode : String)
    (hcn : className.data.all isWordChar = true)
    (hm : ∀ m ∈ members.methods, m.name.data.all isWordChar = true)
    (hp : ∀ p ∈ members.properties, p.name.data.all isWordChar = true)
    (he : ∀ e ∈ members.events, e.name.data.all isWordChar = true) :
    isOkE (updateClassToImplementInterface classText className interfaceName)
      = true ∧
    isOkE (filterUnimplementedMembers members classCode) = true := by
  constructor
  · unfold updateClassToImplementInterface
    split
    · split
      · dsimp only []
        split
        · split <;> rfl
        · rfl
      · split
        · split
          · dsimp only []
            split
            · split <;> rfl
            · rfl
          · rfl
        · rename_i hv2
          exact absurd (regularClassPattern_valid className hcn) hv2
    · rename_i hv1
      exact absurd (primaryClassPattern_valid className hcn) hv1
  · unfold filterUnimplementedMembers
    split
    · rfl
    · rename_i hfalse
      have h1 : members.methods.all
          (fun m => jsRegexValid (methodImplPattern m.name)) = true :=
        List.all_eq_true.mpr
          (fun m hmem => methodImplPattern_valid m.name (hm m hmem))
      have h2 : members.properties.all
          (fun p => jsRegexValid (propertyImplPattern p.name)) = true :=
        List.all_eq_true.mpr
          (fun p hmem => propertyImplPattern_valid p.name (hp p hmem))
      have h3 : members.events.all
          (fun e => jsRegexValid (eventImplPattern e.name)) = true :=
        List.all_eq_true.mpr
          (fun e hmem => eventImplPattern_valid e.name (he e hmem))
      exact absurd (by rw [h1, h2, h3]; rfl) hfalse

/-- Witness for the amended C2 theorem at a concrete input. -/
theorem core_total_on_identifier_names_witness :
    isOkE (updateClassToImplementInterface ("public class A \x7b \x7d") ("A")
      ("IA")) = true ∧
    isOkE (filterUnimplementedMembers
      { methods := [⟨"void", "DoWork", none, ""⟩],
        properties := [], events := [] } ("")) = true :=
  core_total_on_identifier_names ("public class A \x7b \x7d") ("A") ("IA")
    { methods := [⟨"void", "DoWork", none, ""⟩],
      properties := [], events := [] } ("")
    (by decide) (by decide) (by decide) (by decide)

/-- String concatenation concatenates the character data. -/
theorem string_data_append (a b : String) : (a ++ b).data = a.data ++ b.data :=
  rfl

/-- If the attempt succeeds at a suffix position (for every possible
preceding character), the whole-string search succeeds. -/
theorem searchT_suffix (att : Option Char → List Char → Bool) :
    ∀ (a : List Char) (prev : Option Char) (l : List Char),
    (∀ p, att p l = true) → searchT att prev (a ++ l) = true := by
  intro a
  induction a with
  | nil =>
    intro prev l h
    rw [List.nil_append, searchT.eq_def]
    dsimp only []
    rw [h prev, Bool.true_or]
  | cons c t ih =>
    intro prev l h
    rw [List.cons_append, searchT.eq_def]
    dsimp only []
    rw [ih (some c) l h]
    simp

/-- The method-implementation attempt for `DoWork` succeeds at the start of
`public void DoWork() { }`, whatever precedes and follows. -/
theorem methodImplAttempt_DoWork (prev : Option Char) (b : List Char) :
    methodImplAttempt ("DoWork".data) prev
      (("public void DoWork() \x7b \x7d".data) ++ b) = true := rfl

/-- C8.  Unimplemented filtering: for every interface member set and every
class text that contains the fragment `public void DoWork() { }`, the member
set returned by `filterUnimplementedMembers` contains no method descriptor
named `DoWork` (the method test pattern `public\s+.*\bDoWork\s*[<(]` matches
inside that fragment, so every such descriptor is dropped). -/
theorem filterUnimplemented_excludes_DoWork
    (members : InterfaceMembers) (pre post : String)
    (res : InterfaceMembers)
    (hres : filterUnimplementedMembers members
      (pre ++ ("public void DoWork() \x7b \x7d") ++ post) = .ok res)
    (m : MethodInfo) (hm : m ∈ res.methods) :
    m.name ≠ "DoWork" := by
  intro hname
  unfold filterUnimplementedMembers at hres
  split at hres
  · injection hres with hres
    subst hres
    rw [List.mem_filter] at hm
    have htest := hm.2
    rw [hname] at htest
    have hdw : methodImplTest ("DoWork")
        (pre ++ ("public void DoWork() \x7b \x7d") ++ post) = true := by
      unfold methodImplTest
      have hdata : (pre ++ ("public void DoWork() \x7b \x7d") ++ post).data
          = pre.data ++ (("public void DoWork() \x7b \x7d".data) ++
            post.data) := by
        rw [string_data_append, string_data_append, List.append_assoc]
      rw [hdata]
      exact searchT_suffix _ pre.data none _
        (fun p => methodImplAttempt_DoWork p post.data)
    rw [hdw] at htest
    exact Bool.noConfusion htest
  · exact Except.noConfusion hres

/-- Witness for C8 at a concrete input: `DoWork` is filtered out while the
unimplemented `Other` survives, and the surviving descriptor is not named
`DoWork`. -/
theorem filterUnimplemented_excludes_DoWork_witness :
    (⟨"int", "Other", none, ""⟩ : MethodInfo).name ≠ "DoWork" :=
  filterUnimplemented_excludes_DoWork
    ⟨[⟨"void", "DoWork", none, ""⟩, ⟨"int", "Other", none, ""⟩], [], []⟩
    ("") ("") ⟨[⟨"int", "Other", none, ""⟩], [], []⟩ (by decide)
    ⟨"int", "Other", none, ""⟩ (by decide)

/-- C7.  Constructor exclusion: for every class text whose public-member
pattern matches are all named `Foo` (the hypothesis rendering "the only
public member is a zero-argument member named `Foo`" at the textual level
the parser sees), method extraction with enclosing class name `Foo` returns
no method descriptors: each match is discarded because its name equals the
class name. -/
theorem extractMethods_constructor_exclusion (code : String)
    (h : ∀ m ∈ rawMethods code, m.name = "Foo") :
    extractMethods code (some ("Foo")) = [] := by
  unfold extractMethods
  rw [List.filter_eq_nil_iff]
  intro m hm
  have hname := h m hm
  dsimp only []
  rw [hname]
  decide

/-- Witness for C7: a class `Foo` whose only public member is the
zero-argument `public Foo Foo()` — the raw pattern matches are all named
`Foo`, and extraction returns nothing. -/
theorem extractMethods_constructor_exclusion_witness :
    extractMethods
      ("public class Foo\n\x7b\n    public Foo Foo()\n    \x7b\n    \x7d\n\x7d")
      (some ("Foo")) = [] :=
  extractMethods_constructor_exclusion
    ("public class Foo\n\x7b\n    public Foo Foo()\n    \x7b\n    \x7d\n\x7d")
    (by decide)

/-- C9.  Generated interface file layout: for every class text, requested
name and file name, the generated text is exactly the extracted using
lines, a blank separator, and either a namespace wrapper (present exactly
when a namespace was extracted) around the interface declaration or the
bare interface declaration, whose body lists the extracted method signature
lines first and then the extracted event signature lines, each group in
extraction order. -/
theorem generateInterfaceCode_layout (classText ifn fileName : String) :
    (generateInterfaceCode classText ifn fileName).interfaceCode =
      (let members :=
        (extractMethods classText
          (some (replaceFirst fileName (".cs") ("")))).map methodSignatureLine
        ++ (extractEvents classText).map eventSignatureLine
      match extractNamespace classText with
      | some n =>
        extractUsings classText ++ "\n\nnamespace " ++ n ++
          " \n\x7b\n\tpublic interface " ++ posixBasename ifn ++
          " \n\t\x7b\n\t" ++ String.intercalate ("\n\t") members ++
          "\n\t\x7d\n\x7d"
      | none =>
        extractUsings classText ++ "\n\npublic interface " ++
          posixBasename ifn ++ " \n\x7b\n" ++
          String.intercalate ("\n") members ++ "\n\x7d") := by
  unfold generateInterfaceCode
  cases hns : extractNamespace classText <;> rfl

/-- C10.  The `interfaceName` returned by `generateInterfaceCode` is the
final path segment (Node `path.basename`) of the requested name-or-path
string — directory components are stripped — and that basename is the
identifier that appears in the generated `public interface` declaration. -/
theorem generateInterfaceCode_interfaceName_basename
    (classText ifn fileName : String) :
    (generateInterfaceCode classText ifn fileName).interfaceName
      = posixBasename ifn ∧
    ("public interface " ++ posixBasename ifn ++ " \n").data <:+:
      (generateInterfaceCode classText ifn fileName).interfaceCode.data := by
  constructor
  · rfl
  · unfold generateInterfaceCode
    cases hns : extractNamespace classText with
    | some n =>
      dsimp only []
      refine ⟨(extractUsings classText).data ++ ("\n\nnamespace ").data ++
        n.data ++ (" \n\x7b\n\t").data,
        ("\t\x7b\n\t").data ++
          (String.intercalate ("\n\t")
            ((extractMethods classText
              (some (replaceFirst fileName (".cs") ("")))).map
                methodSignatureLine ++
              (extractEvents classText).map eventSignatureLine)).data ++
          ("\n\t\x7d\n\x7d").data, ?_⟩
      have e1 : (" \n\x7b\n\tpublic interface " : String)
          = (" \n\x7b\n\t") ++ ("public interface ") := rfl
      have e2 : (" \n\t\x7b\n\t" : String) = (" \n") ++ ("\t\x7b\n\t") := rfl
      rw [e1, e2]
      simp only [string_data_append, List.append_assoc]
    | none =>
      dsimp only []
      refine ⟨(extractUsings classText).data ++ ("\n\n").data,
        ("\x7b\n").data ++
          (String.intercalate ("\n")
            ((extractMethods classText
              (some (replaceFirst fileName (".cs") ("")))).map
                methodSignatureLine ++
              (extractEvents classText).map eventSignatureLine)).data ++
          ("\n\x7d").data, ?_⟩
      have e1 : ("\n\npublic interface " : String)
          = ("\n\n") ++ ("public interface ") := rfl
      have e2 : (" \n\x7b\n" : String) = (" \n") ++ ("\x7b\n") := rfl
      rw [e1, e2]
      simp only [string_data_append, List.append_assoc]

/-- C1 (code bug).  Adding a member to an interface is not idempotent for
property descriptors: the duplicate check derives the member name with
`/(\w+)\s*[<(]/`, which never matches a property signature such as
`string Name { get; set; }` (it contains no `<` or `(`), so the second
application re-inserts the member — and, because the interface pattern's
`([\s\S]*?)(\})` stops at the first `}` (the accessor list's), it also
corrupts the nesting.  This contradicts the repository's own test
"Does not add duplicate property". -/
theorem addPropertyToInterface_not_idempotent :
    addPropertyToInterface
      (addPropertyToInterface ("public interface IMyInterface\n\x7b\n\x7d")
        ⟨"string", "Name"⟩) ⟨"string", "Name"⟩
    ≠ addPropertyToInterface ("public interface IMyInterface\n\x7b\n\x7d")
        ⟨"string", "Name"⟩ := by
  decide

/-- C3.  Round trip: for the class text with public methods
`void RollDice()` and `int GetScore()`, running `generateInterfaceCode` and
then `parseInterfaceMembers` on the generated interface text yields exactly
the two method descriptors `RollDice` (void, no parameters) and `GetScore`
(int, no parameters), in that order, and nothing else. -/
theorem roundTrip_dice :
    parseInterfaceMembers ((generateInterfaceCode
      ("public class Dice\n\x7b\n    public void RollDice()\n    \x7b\n    \x7d\n\n    public int GetScore()\n    \x7b\n        return 0;\n    \x7d\n\x7d\n")
      ("IDice") ("Dice.cs")).interfaceCode)
    = ⟨[⟨"void", "RollDice", none, ""⟩, ⟨"int", "GetScore", none, ""⟩],
       [], []⟩ := by
  decide

/-- C6 (code bug).  Appending to an existing comma-separated inheritance
list is broken: on `public class Foo : Base, IOther` with target `IFoo`,
the greedy `[^\s{]+` of the header regex consumes `Base,` (including the
comma), the following `(?:\s*,\s*[^\s{]+)*` then matches zero times, so the
captured list is `Base,` and the replacement produces
`public class Foo : Base,, IFoo IOther` instead of the intended
`public class Foo : Base, IOther, IFoo`. -/
theorem updateClass_append_comma_list_bug :
    updateClassToImplementInterface
      ("public class Foo : Base, IOther\n\x7b\n\x7d") ("Foo") ("IFoo")
    = .ok ("public class Foo : Base,, IFoo IOther\n\x7b\n\x7d") := by
  decide

/-- Witness for C4 at a concrete input: the unrelated method text survives
the header rewrite character for character. -/
theorem updateClass_structure_preservation_witness :
    ("public void Unrelated()").data <:+:
      ("public class Foo : IFoo\n\x7b\n    public void Unrelated()\n    \x7b\n    \x7d\n\x7d" : String).data :=
  updateClass_structure_preservation
    ("public class Foo\n\x7b\n    public void Unrelated()\n    \x7b\n    \x7d\n\x7d")
    ("Foo") ("IFoo") [] (("public class Foo").data)
    (("\n\x7b\n    public void Unrelated()\n    \x7b\n    \x7d\n\x7d").data)
    (("public void Unrelated()").data)
    (by decide)
    (Or.inr ⟨("\n\x7b\n    ").data, ("\n    \x7b\n    \x7d\n\x7d").data,
      by decide⟩)
    ("public class Foo : IFoo\n\x7b\n    public void Unrelated()\n    \x7b\n    \x7d\n\x7d")
    (by decide)

/-- The guard-as-implemented lemma at the spec's single-entry example:
`public class Foo : IFoo` with target `IFoo` is returned unchanged. -/
theorem updateClass_duplicate_guard_witness :
    updateClassToImplementInterface ("public class Foo : IFoo\n\x7b\n\x7d")
      ("Foo") ("IFoo")
    = .ok ("public class Foo : IFoo\n\x7b\n\x7d") :=
  updateClass_duplicate_guard ("public class Foo : IFoo\n\x7b\n\x7d")
    ("Foo") ("IFoo") ((" : IFoo").data) (by decide) (by decide)

/-- C5 (code bug).  Duplicate interface guard: the claim says that whenever
the class declaration's existing inheritance list textually contains the
target interface name the input is returned unchanged, but on
`public class Foo : Base, IFoo` with target `IFoo` — whose list contains
`IFoo` — the greedy `[^\s{]+` of the header regex captures only `Base,` as
the inheritance group, the guard's `includes` test therefore misses, and
the code appends a duplicate (with the same corrupted punctuation as the
C6 slip) instead of returning the input unchanged.  The guard works only on
what the regex captures, e.g. on single-entry lists. -/
theorem updateClass_duplicate_guard_miss :
    updateClassToImplementInterface
      ("public class Foo : Base, IFoo\n\x7b\n\x7d") ("Foo") ("IFoo")
    = .ok ("public class Foo : Base,, IFoo IFoo\n\x7b\n\x7d") := by
  decide
